import Mathlib

/-!
Verification development for the Mediaplan OOH media-plan editor.

The definitions below are a shallow embedding of the TypeScript source:
 - `handleAllocationChange` from the PlanDashboard component
   (src/components/PlanComparison.tsx, lines 555-605),
 - `handleSavePlan`, the startup load effect and the analysis patch guard
   from src/App.tsx,
 - the CSV rationale-field rendering from `handleExportCSV`
   (src/components/PlanComparison.tsx, lines 467-491).

JavaScript numbers are modelled as `Option ℚ` where `none` stands for NaN
and `some q` for a finite number: on every path exercised here the source
never produces Infinity (each division is guarded so the divisor is
nonzero), so the finite-or-NaN model is exact for those paths.  `Math.round`
is round-half-towards-positive-infinity, i.e. `⌊x + 1/2⌋`, and
`Number(x.toFixed(1))` rounds to one decimal with ties towards positive
infinity, i.e. `⌊10x + 1/2⌋ / 10`.
-/

/-- A JavaScript number restricted to the finite-or-NaN values reachable in
this code base: `none` is NaN, `some q` a finite number (idealised as a
rational). -/
abbrev JSNum := Option ℚ

/-- JS `+` on numbers: NaN is absorbing. -/
def jsAdd : JSNum → JSNum → JSNum
  | some a, some b => some (a + b)
  | _, _ => none

/-- JS `-` on numbers: NaN is absorbing. -/
def jsSub : JSNum → JSNum → JSNum
  | some a, some b => some (a - b)
  | _, _ => none

/-- JS `*` on numbers: NaN is absorbing. -/
def jsMul : JSNum → JSNum → JSNum
  | some a, some b => some (a * b)
  | _, _ => none

/-- JS `/` on numbers.  NaN is absorbing; division by zero is mapped to
`none`, which is adequate here because every division in the translated
code is guarded by a nonzero divisor. -/
def jsDiv : JSNum → JSNum → JSNum
  | some a, some b => if b = 0 then none else some (a / b)
  | _, _ => none

/-- JS `Math.min`: returns NaN if any argument is NaN. -/
def jsMin : JSNum → JSNum → JSNum
  | some a, some b => some (min a b)
  | _, _ => none

/-- JS `Math.max`: returns NaN if any argument is NaN. -/
def jsMax : JSNum → JSNum → JSNum
  | some a, some b => some (max a b)
  | _, _ => none

/-- JS `Math.round` on a finite value: half-way cases round towards
positive infinity. -/
def jsRoundQ (q : ℚ) : ℚ := (⌊q + 1/2⌋ : ℤ)

/-- JS `Math.round`: NaN maps to NaN. -/
def jsRound : JSNum → JSNum := Option.map jsRoundQ

/-- `Number(x.toFixed(1))` on a finite value: round to one decimal place,
ties towards positive infinity. -/
def toFixed1Q (q : ℚ) : ℚ := ((⌊q * 10 + 1/2⌋ : ℤ) : ℚ) / 10

/-- `Number(x.toFixed(1))`: NaN maps to NaN. -/
def jsToFixed1 : JSNum → JSNum := Option.map toFixed1Q

/-- JS `>=` on numbers: any comparison with NaN is false. -/
def jsGe : JSNum → JSNum → Bool
  | some a, some b => decide (b ≤ a)
  | _, _ => false

/-- JS `>` on numbers: any comparison with NaN is false. -/
def jsGt : JSNum → JSNum → Bool
  | some a, some b => decide (b < a)
  | _, _ => false

/-- Value of a nonempty digit string (most significant digit first). -/
def natFromDigits (cs : List Char) : ℕ :=
  cs.foldl (fun a c => a * 10 + (c.toNat - 48)) 0

/-- Unsigned decimal literal of the forms `123`, `123.45`, `.45`, `123.`;
`none` for anything else.  (The scientific and hexadecimal forms of the JS
numeric grammar are not used by this code base and are not modelled.) -/
def parseUnsignedDec (cs : List Char) : Option ℚ :=
  let ip := cs.takeWhile (·.isDigit)
  let rest := cs.dropWhile (·.isDigit)
  match rest with
  | [] => if ip.isEmpty then none else some (natFromDigits ip : ℚ)
  | '.' :: fp =>
      if fp.all (·.isDigit) && !(ip.isEmpty && fp.isEmpty) then
        some ((natFromDigits ip : ℚ) + (natFromDigits fp : ℚ) / (10 : ℚ) ^ fp.length)
      else none
  | _ => none

/-- Leading- and trailing-whitespace trimming of JS string-to-number
coercion, at the character level. -/
def jsTrim (cs : List Char) : List Char :=
  ((cs.dropWhile Char.isWhitespace).reverse.dropWhile Char.isWhitespace).reverse

/-- JS `Number(s)` for a string `s`: whitespace-only strings coerce to `0`,
decimal literals to their value, anything else to NaN (`none`). -/
def jsStringToNumber (s : String) : JSNum :=
  match jsTrim s.toList with
  | [] => some 0
  | '-' :: rest => (parseUnsignedDec rest).map (fun q => -q)
  | '+' :: rest => parseUnsignedDec rest
  | cs => parseUnsignedDec cs

/-- The raw `value: any` argument of `handleAllocationChange`: the UI passes
either an input string or (in principle) a number. -/
inductive JSValue where
  | str (s : String)
  | num (q : ℚ)
deriving DecidableEq, Repr

/-- JS `Number(value)` for the values above. -/
def jsToNumber : JSValue → JSNum
  | .str s => jsStringToNumber s
  | .num q => some q

/-- JS string conversion of a raw value, used only when a free-text field
is assigned; the UI only ever passes strings there, and the numeric cases
are an inessential approximation of JS number formatting. -/
def jsValueToString : JSValue → String
  | .str s => s
  | .num q => toString q

/-- `MediaAllocation` from src/types.ts (the `imageUrl` field is carried
along unmodified and omitted). -/
structure MediaAllocation where
  type : String
  name : String
  percentage : JSNum
  budget : JSNum
  reasoning : String
  specifications : Option String
  location : Option String
deriving DecidableEq, Repr

/-- `AnalysisData` from src/types.ts, plus the `creativeSuggestions` field
the application code populates. -/
structure AnalysisData where
  roi : String
  swot : String
  marketing4p : String
  competitorInsight : String
  creativeSuggestions : Option String
deriving DecidableEq, Repr

/-- `UserProfile` from src/types.ts. -/
structure UserProfile where
  painPoints : String
  goals : String
  scenarios : String
  products : String
  measurement : String
deriving DecidableEq, Repr

/-- `AdPlan` from src/types.ts. -/
structure AdPlan where
  id : String
  name : String
  createdAt : ℤ
  userProfile : UserProfile
  totalBudget : JSNum
  duration : String
  regions : List String
  allocations : List MediaAllocation
  analysis : AnalysisData
deriving DecidableEq, Repr

/-- The `field` argument of `handleAllocationChange` (`keyof MediaAllocation`). -/
inductive AllocField where
  | type | name | percentage | budget | reasoning | specifications | location
deriving DecidableEq, Repr

/-- Assignment `{ ...item, [field]: value }` for the free-text branch of
`handleAllocationChange`.  The numeric fields are listed for totality only;
the handler dispatches them to their own branches first. -/
def setTextField (item : MediaAllocation) (field : AllocField) (value : JSValue) :
    MediaAllocation :=
  match field with
  | .type => { item with type := jsValueToString value }
  | .name => { item with name := jsValueToString value }
  | .reasoning => { item with reasoning := jsValueToString value }
  | .specifications => { item with specifications := some (jsValueToString value) }
  | .location => { item with location := some (jsValueToString value) }
  | .percentage => item
  | .budget => item

/-- `plan.allocations.reduce((sum, item) => sum + item.budget, 0)`. -/
def sumBudgetsJS (l : List MediaAllocation) : JSNum :=
  l.foldl (fun s a => jsAdd s a.budget) (some 0)

/-- Accumulator recursion mirroring
`reduce((sum, item, i) => i === index ? sum : sum + item.budget, 0)`. -/
def sumBudgetsExceptAux (i idx : ℕ) (s : JSNum) : List MediaAllocation → JSNum
  | [] => s
  | a :: rest => sumBudgetsExceptAux (i + 1) idx (if i = idx then s else jsAdd s a.budget) rest

/-- `plan.allocations.reduce((sum, item, i) => i === index ? sum : sum + item.budget, 0)`. -/
def sumBudgetsExceptJS (l : List MediaAllocation) (idx : ℕ) : JSNum :=
  sumBudgetsExceptAux 0 idx (some 0) l

/-- The guarded percentage recomputation shared by the `percentage` and
`budget` branches:
`if (newTotalBudget > 0) newAllocations.forEach((item, i) => { ...percentage = Number(((item.budget / newTotalBudget) * 100).toFixed(1)) })`. -/
def recomputePercentages (total : JSNum) (allocs : List MediaAllocation) :
    List MediaAllocation :=
  if jsGt total (some 0) then
    allocs.map fun it =>
      { it with percentage := jsToFixed1 (jsMul (jsDiv it.budget total) (some 100)) }
  else allocs

/-- Outcome of one call to `handleAllocationChange`: either the read-only
early return (nothing emitted), or `onUpdatePlan` called with the new plan.
`invalid` marks an out-of-range index, where the JS source would fault on
`newAllocations[index].budget`; no claim exercises that case. -/
inductive HandlerResult where
  | noop
  | invalid
  | updated (plan : AdPlan)
deriving DecidableEq, Repr

/-- `handleAllocationChange` from the PlanDashboard component
(src/components/PlanComparison.tsx, lines 555-605), with the purely visual
`setIsSyncing` / `setLastEditedIndex` bookkeeping dropped. -/
def handleAllocationChange (readOnly : Bool) (plan : AdPlan) (index : ℕ)
    (field : AllocField) (value : JSValue) : HandlerResult :=
  if readOnly then .noop else
  match plan.allocations[index]? with
  | none => .invalid
  | some item =>
    match field with
    | .percentage =>
      let v := jsMin (some 100) (jsMax (some 0) (jsToNumber value))
      let otherBudget := sumBudgetsExceptJS plan.allocations index
      let newBudget :=
        if otherBudget = some 0 then
          jsRound (jsMul plan.totalBudget (jsDiv v (some 100)))
        else
          let v2 := if jsGe v (some (999/10)) then some ((999 : ℚ)/10) else v
          jsRound (jsMul otherBudget (jsDiv v2 (jsSub (some 100) v2)))
      let newAllocs := plan.allocations.set index { item with budget := newBudget }
      let newTotal := sumBudgetsJS newAllocs
      .updated { plan with
                 totalBudget := newTotal
                 allocations := recomputePercentages newTotal newAllocs }
    | .budget =>
      let newBudget := jsMax (some 0) (jsToNumber value)
      let newAllocs := plan.allocations.set index { item with budget := newBudget }
      let newTotal := sumBudgetsJS newAllocs
      .updated { plan with
                 totalBudget := newTotal
                 allocations := recomputePercentages newTotal newAllocs }
    | _ =>
      .updated { plan with
                 allocations := plan.allocations.set index (setTextField item field value) }

/-- `handleSavePlan` from src/App.tsx, lines 57-67 (the collection update). -/
def handleSavePlan (savedPlans : List AdPlan) (planToSave : AdPlan) : List AdPlan :=
  if savedPlans.any (fun p => p.id = planToSave.id) then
    savedPlans.map (fun p => if p.id = planToSave.id then planToSave else p)
  else
    planToSave :: savedPlans

/-- `handleSavePlan` including the persistence write
`localStorage.setItem('ooh_saved_plans', JSON.stringify(newSaved))`:
returns the new in-memory collection together with the new content of the
single storage key.  JSON serialization is abstracted as a parameter. -/
def handleSavePlanStore (serialize : List AdPlan → String)
    (savedPlans : List AdPlan) (planToSave : AdPlan) : List AdPlan × Option String :=
  let newSaved := handleSavePlan savedPlans planToSave
  (newSaved, some (serialize newSaved))

/-- Startup load of the persisted collection, src/App.tsx lines 41-48:
`const stored = localStorage.getItem('ooh_saved_plans'); if (stored) { try { setSavedPlans(JSON.parse(stored)) } catch (e) { console.error(...) } }`.
`stored` is the content of the storage key (`none` when absent); `parse`
abstracts `JSON.parse`, returning `none` when it would throw.  The result
is the `savedPlans` state after the effect, whose initial value is `[]`;
an empty stored string is falsy in JS and is skipped like absence. -/
def loadSavedPlans (parse : String → Option (List AdPlan))
    (stored : Option String) : List AdPlan :=
  match stored with
  | none => []
  | some s => if s.isEmpty then [] else (parse s).getD []

/-- The state updater `prev => prev && prev.id === newPlanId ? { ...prev, analysis } : prev`
from src/App.tsx lines 136-137, applied when the asynchronous analysis call
resolves. -/
def applyAnalysisPatch (newPlanId : String) (analysis : AnalysisData)
    (prev : Option AdPlan) : Option AdPlan :=
  match prev with
  | none => none
  | some p => if p.id = newPlanId then some { p with analysis := analysis } else some p

/-- Single-character global replacement `s.replace(/"/g, '""')`,
character-exact since the pattern is one character. -/
def escDouble (cs : List Char) : List Char :=
  cs.flatMap fun c => if c = '"' then ['"', '"'] else [c]

/-- Single-character global replacement `s.replace(/\n/g, ' ')`. -/
def replaceNewlines (cs : List Char) : List Char :=
  cs.map fun c => if c = '\n' then ' ' else c

/-- The rationale column of one CSV row in `handleExportCSV`
(src/components/PlanComparison.tsx line 475):
`` `"${item.reasoning.replace(/"/g, '""').replace(/\n/g, ' ')}"` ``. -/
def csvReasoningField (reasoning : String) : String :=
  ⟨'"' :: replaceNewlines (escDouble reasoning.toList) ++ ['"']⟩

/-- One data row of `handleExportCSV` (src/components/PlanComparison.tsx
lines 469-476).  JS number formatting for the two numeric columns is
abstracted as `numToStr`. -/
def csvRow (numToStr : JSNum → String) (item : MediaAllocation) : List String :=
  [⟨'"' :: escDouble item.name.toList ++ ['"']⟩,
   ⟨'"' :: item.type.toList ++ ['"']⟩,
   ⟨'"' :: escDouble (item.specifications.getD "标准规格").toList ++ ['"']⟩,
   numToStr item.percentage ++ "%",
   numToStr item.budget,
   csvReasoningField item.reasoning]

/-! ## Rational-level views of the JS computations -/

/-- The rational value of an allocation's budget (`0` for NaN; only used
under hypotheses that exclude NaN). -/
def budgetQ (a : MediaAllocation) : ℚ := a.budget.getD 0

/-- The rational value of an allocation's percentage (`0` for NaN). -/
def pctQ (a : MediaAllocation) : ℚ := a.percentage.getD 0

/-- Sum of the budgets of a list of allocations, as a rational. -/
def sumQ (l : List MediaAllocation) : ℚ := (l.map budgetQ).sum

/-- All budgets in the list are actual numbers (no NaN). -/
def numericBudgets (l : List MediaAllocation) : Bool :=
  l.all (fun a => a.budget.isSome)

/-- The plan's total budget and all allocation budgets are actual numbers. -/
def numericPlan (p : AdPlan) : Bool :=
  p.totalBudget.isSome && numericBudgets p.allocations

@[simp] theorem jsAdd_some (a b : ℚ) : jsAdd (some a) (some b) = some (a + b) := rfl

@[simp] theorem jsSub_some (a b : ℚ) : jsSub (some a) (some b) = some (a - b) := rfl

@[simp] theorem jsMul_some (a b : ℚ) : jsMul (some a) (some b) = some (a * b) := rfl

@[simp] theorem jsMin_some (a b : ℚ) : jsMin (some a) (some b) = some (min a b) := rfl

@[simp] theorem jsMax_some (a b : ℚ) : jsMax (some a) (some b) = some (max a b) := rfl

@[simp] theorem jsRound_some (q : ℚ) : jsRound (some q) = some (jsRoundQ q) := rfl

@[simp] theorem jsToFixed1_some (q : ℚ) : jsToFixed1 (some q) = some (toFixed1Q q) := rfl

@[simp] theorem jsGe_some (a b : ℚ) : jsGe (some a) (some b) = decide (b ≤ a) := rfl

@[simp] theorem jsGt_some (a b : ℚ) : jsGt (some a) (some b) = decide (b < a) := rfl

theorem jsDiv_some {b : ℚ} (hb : b ≠ 0) (a : ℚ) : jsDiv (some a) (some b) = some (a / b) := by
  simp [jsDiv, hb]

@[simp] theorem jsToNumber_num (q : ℚ) : jsToNumber (.num q) = some q := rfl

theorem numericBudgets_mem {l : List MediaAllocation} (h : numericBudgets l = true)
    {a : MediaAllocation} (ha : a ∈ l) : a.budget = some (budgetQ a) := by
  simp only [numericBudgets, List.all_eq_true] at h
  rcases Option.isSome_iff_exists.mp (h a ha) with ⟨b, hb⟩
  simp [budgetQ, hb]

theorem foldl_jsAdd_some {l : List MediaAllocation} (h : numericBudgets l = true)
    (q : ℚ) : l.foldl (fun s a => jsAdd s a.budget) (some q) = some (q + sumQ l) := by
  induction l generalizing q with
  | nil => simp [sumQ]
  | cons a t ih =>
    have ha : a.budget = some (budgetQ a) := numericBudgets_mem h (by simp)
    have ht : numericBudgets t = true := by
      simp only [numericBudgets, List.all_eq_true] at h ⊢
      exact fun x hx => h x (by simp [hx])
    simp only [List.foldl_cons, ha, jsAdd_some, ih ht]
    simp [sumQ]
    ring

theorem sumBudgetsJS_eq {l : List MediaAllocation} (h : numericBudgets l = true) :
    sumBudgetsJS l = some (sumQ l) := by
  simpa using foldl_jsAdd_some h 0

theorem sumBudgetsExceptAux_skip {l : List MediaAllocation} (h : numericBudgets l = true) :
    ∀ {i idx : ℕ}, idx < i → ∀ q : ℚ,
      sumBudgetsExceptAux i idx (some q) l = some (q + sumQ l) := by
  induction l with
  | nil => intro i idx _ q; simp [sumBudgetsExceptAux, sumQ]
  | cons a t ih =>
    intro i idx hlt q
    have ha : a.budget = some (budgetQ a) := numericBudgets_mem h (by simp)
    have ht : numericBudgets t = true := by
      simp only [numericBudgets, List.all_eq_true] at h ⊢
      exact fun x hx => h x (by simp [hx])
    have hne : ¬ i = idx := by omega
    simp only [sumBudgetsExceptAux, hne, if_false, ha, jsAdd_some]
    rw [ih ht (by omega)]
    simp [sumQ]
    ring

theorem sumBudgetsExceptAux_eq {l : List MediaAllocation} (h : numericBudgets l = true) :
    ∀ (k i : ℕ) (q : ℚ),
      sumBudgetsExceptAux i (i + k) (some q) l = some (q + sumQ (l.eraseIdx k)) := by
  induction l with
  | nil => intro k i q; simp [sumBudgetsExceptAux, sumQ]
  | cons a t ih =>
    intro k i q
    have ha : a.budget = some (budgetQ a) := numericBudgets_mem h (by simp)
    have ht : numericBudgets t = true := by
      simp only [numericBudgets, List.all_eq_true] at h ⊢
      exact fun x hx => h x (by simp [hx])
    cases k with
    | zero =>
      simp only [Nat.add_zero, sumBudgetsExceptAux]
      rw [if_pos trivial, sumBudgetsExceptAux_skip ht (by omega) q]
      simp [List.eraseIdx]
    | succ k =>
      have hne : ¬ i = i + (k + 1) := by omega
      simp only [sumBudgetsExceptAux]
      rw [if_neg hne, ha, jsAdd_some]
      have hik : i + (k + 1) = (i + 1) + k := by omega
      rw [hik, ih ht k (i + 1) (q + budgetQ a)]
      simp [List.eraseIdx, sumQ]
      ring

theorem sumBudgetsExceptJS_eq {l : List MediaAllocation} (h : numericBudgets l = true)
    (idx : ℕ) : sumBudgetsExceptJS l idx = some (sumQ (l.eraseIdx idx)) := by
  have := sumBudgetsExceptAux_eq h idx 0 0
  simpa [sumBudgetsExceptJS] using this

theorem sumQ_set {l : List MediaAllocation} :
    ∀ {idx : ℕ}, idx < l.length → ∀ a : MediaAllocation,
      sumQ (l.set idx a) = sumQ (l.eraseIdx idx) + budgetQ a := by
  induction l with
  | nil => intro idx h; simp at h
  | cons b t ih =>
    intro idx h a
    cases idx with
    | zero => simp [sumQ, List.eraseIdx]; ring
    | succ idx =>
      simp only [List.set, List.eraseIdx, sumQ, List.map_cons, List.sum_cons]
      have := ih (by simpa using h) a
      simp only [sumQ] at this
      rw [this]
      ring

theorem numericBudgets_set {l : List MediaAllocation} (h : numericBudgets l = true)
    {a : MediaAllocation} (ha : a.budget.isSome = true) (idx : ℕ) :
    numericBudgets (l.set idx a) = true := by
  simp only [numericBudgets, List.all_eq_true] at h ⊢
  intro x hx
  rcases List.mem_or_eq_of_mem_set hx with hx' | rfl
  · exact h x hx'
  · exact ha

@[simp] theorem jsAdd_none_right (a : JSNum) : jsAdd a none = none := by cases a <;> rfl

@[simp] theorem jsAdd_none_left (a : JSNum) : jsAdd none a = none := rfl

@[simp] theorem jsMul_none_right (a : JSNum) : jsMul a none = none := by cases a <;> rfl

@[simp] theorem jsMul_none_left (a : JSNum) : jsMul none a = none := rfl

@[simp] theorem jsSub_none_right (a : JSNum) : jsSub a none = none := by cases a <;> rfl

@[simp] theorem jsDiv_none_left (a : JSNum) : jsDiv none a = none := rfl

@[simp] theorem jsDiv_none_right (a : JSNum) : jsDiv a none = none := by cases a <;> rfl

@[simp] theorem jsMin_none_right (a : JSNum) : jsMin a none = none := by cases a <;> rfl

@[simp] theorem jsMax_none_right (a : JSNum) : jsMax a none = none := by cases a <;> rfl

@[simp] theorem jsRound_none : jsRound none = none := rfl

@[simp] theorem jsGe_none_left (a : JSNum) : jsGe none a = false := rfl

@[simp] theorem jsGt_none_left (a : JSNum) : jsGt none a = false := rfl

theorem recomputePercentages_pos {T : ℚ} (hT : 0 < T) {l : List MediaAllocation}
    (h : numericBudgets l = true) :
    recomputePercentages (some T) l =
      l.map (fun it => { it with percentage := some (toFixed1Q (budgetQ it / T * 100)) }) := by
  have hT' : T ≠ 0 := ne_of_gt hT
  simp only [recomputePercentages, jsGt_some]
  rw [if_pos (by simpa using hT)]
  apply List.map_congr_left
  intro it hmem
  rw [numericBudgets_mem h hmem, jsDiv_some hT', jsMul_some, jsToFixed1_some]

theorem recomputePercentages_nonpos {T : JSNum} (h : jsGt T (some 0) = false)
    (l : List MediaAllocation) : recomputePercentages T l = l := by
  simp [recomputePercentages, h]

theorem budgetQ_pct_update (it : MediaAllocation) (p : JSNum) :
    budgetQ { it with percentage := p } = budgetQ it := rfl

theorem sumQ_recomputePercentages (T : JSNum) (l : List MediaAllocation) :
    sumQ (recomputePercentages T l) = sumQ l := by
  unfold recomputePercentages
  split
  · simp only [sumQ, List.map_map]
    congr 1
  · rfl

theorem length_recomputePercentages (T : JSNum) (l : List MediaAllocation) :
    (recomputePercentages T l).length = l.length := by
  unfold recomputePercentages
  split <;> simp

/-- The cap `if (newPercentage >= 99.9) newPercentage = 99.9` applied in the
`otherBudget ≠ 0` branch, as a rational. -/
def pctCap (p : ℚ) : ℚ := if 999/10 ≤ p then 999/10 else p

/-- The edited allocation's new budget for a `percentage` edit on a plan
whose numbers are all non-NaN, as a rational:
`T0` is the plan's pre-edit total budget, `ob` the sum of the other
allocations' budgets, `v` the raw requested percentage. -/
def pctNewBudget (T0 ob v : ℚ) : ℚ :=
  if ob = 0 then jsRoundQ (T0 * (min 100 (max 0 v) / 100))
  else jsRoundQ (ob * (pctCap (min 100 (max 0 v)) / (100 - pctCap (min 100 (max 0 v)))))

theorem getElem?_some_lt {l : List MediaAllocation} {i : ℕ} {item : MediaAllocation}
    (hit : l[i]? = some item) : i < l.length := by
  by_contra hle
  rw [List.getElem?_eq_none (by omega)] at hit
  exact Option.noConfusion hit

theorem sumBudgetsJS_set {plan : AdPlan} {i : ℕ} {item : MediaAllocation}
    (hit : plan.allocations[i]? = some item)
    (hb : numericBudgets plan.allocations = true) (nb : ℚ) :
    sumBudgetsJS (plan.allocations.set i { item with budget := some nb }) =
      some (sumQ (plan.allocations.eraseIdx i) + nb) := by
  rw [sumBudgetsJS_eq (numericBudgets_set hb (by simp) i),
    sumQ_set (getElem?_some_lt hit)]
  rfl

theorem handleAllocationChange_pct {plan : AdPlan} {i : ℕ} {item : MediaAllocation}
    (hit : plan.allocations[i]? = some item) {T0 : ℚ}
    (hT0 : plan.totalBudget = some T0)
    (hb : numericBudgets plan.allocations = true) (v : ℚ) :
    handleAllocationChange false plan i .percentage (.num v) =
      .updated { plan with
        totalBudget := some (sumQ (plan.allocations.eraseIdx i) +
          pctNewBudget T0 (sumQ (plan.allocations.eraseIdx i)) v)
        allocations := recomputePercentages
          (some (sumQ (plan.allocations.eraseIdx i) +
            pctNewBudget T0 (sumQ (plan.allocations.eraseIdx i)) v))
          (plan.allocations.set i
            { item with budget := some (pctNewBudget T0 (sumQ (plan.allocations.eraseIdx i)) v) }) } := by
  have h100 : (100 : ℚ) ≠ 0 := by norm_num
  simp only [handleAllocationChange, Bool.false_eq_true, if_false, hit,
    jsToNumber_num, jsMax_some, jsMin_some, sumBudgetsExceptJS_eq hb,
    Option.some.injEq]
  by_cases hob0 : sumQ (plan.allocations.eraseIdx i) = 0
  · rw [if_pos hob0, hT0, jsDiv_some h100, jsMul_some, jsRound_some,
      sumBudgetsJS_set hit hb]
    simp only [pctNewBudget, if_pos hob0]
  · rw [if_neg hob0]
    by_cases hcap : (999 : ℚ)/10 ≤ min 100 (max 0 v)
    · rw [if_pos (by simpa using hcap)]
      have hd : (100 : ℚ) - 999/10 ≠ 0 := by norm_num
      rw [jsSub_some, jsDiv_some hd, jsMul_some, jsRound_some,
        sumBudgetsJS_set hit hb]
      simp only [pctNewBudget, if_neg hob0, pctCap, if_pos hcap]
    · rw [if_neg (by simpa using hcap)]
      have hlt : min 100 (max 0 v) < 100 := by
        have : min 100 (max 0 v) < 999/10 := lt_of_not_le hcap
        linarith
      have hd : (100 : ℚ) - min 100 (max 0 v) ≠ 0 := by
        intro h
        rw [sub_eq_zero] at h
        exact absurd h.symm (ne_of_lt hlt)
      rw [jsSub_some, jsDiv_some hd, jsMul_some, jsRound_some,
        sumBudgetsJS_set hit hb]
      simp only [pctNewBudget, if_neg hob0, pctCap, if_neg hcap]

theorem handleAllocationChange_budget {plan : AdPlan} {i : ℕ} {item : MediaAllocation}
    (hit : plan.allocations[i]? = some item)
    (hb : numericBudgets plan.allocations = true) (v : ℚ) :
    handleAllocationChange false plan i .budget (.num v) =
      .updated { plan with
        totalBudget := some (sumQ (plan.allocations.eraseIdx i) + max 0 v)
        allocations := recomputePercentages
          (some (sumQ (plan.allocations.eraseIdx i) + max 0 v))
          (plan.allocations.set i { item with budget := some (max 0 v) }) } := by
  simp only [handleAllocationChange, Bool.false_eq_true, if_false, hit,
    jsToNumber_num, jsMax_some]
  rw [sumBudgetsJS_set hit hb]

theorem abs_jsRoundQ_sub (q : ℚ) : |jsRoundQ q - q| ≤ 1/2 := by
  have h1 : ((⌊q + 1/2⌋ : ℤ) : ℚ) ≤ q + 1/2 := Int.floor_le _
  have h2 : q + 1/2 < (⌊q + 1/2⌋ : ℤ) + 1 := Int.lt_floor_add_one _
  rw [jsRoundQ, abs_le]
  constructor <;> linarith

theorem jsRoundQ_nonneg {q : ℚ} (hq : 0 ≤ q) : 0 ≤ jsRoundQ q := by
  have : (0 : ℤ) ≤ ⌊q + 1/2⌋ := by
    apply Int.floor_nonneg.mpr
    linarith
  rw [jsRoundQ]
  exact_mod_cast this

theorem abs_toFixed1Q_sub (q : ℚ) : |toFixed1Q q - q| ≤ 1/20 := by
  have h1 : ((⌊q * 10 + 1/2⌋ : ℤ) : ℚ) ≤ q * 10 + 1/2 := Int.floor_le _
  have h2 : q * 10 + 1/2 < (⌊q * 10 + 1/2⌋ : ℤ) + 1 := Int.lt_floor_add_one _
  rw [toFixed1Q, abs_le]
  constructor <;> [linarith; linarith]

theorem sum_map_mul_right_q (l : List ℚ) (r : ℚ) :
    (l.map (fun b => b * r)).sum = l.sum * r := by
  induction l with
  | nil => simp
  | cons a t ih => simp [ih, add_mul]

theorem abs_sum_map_sub_le (l : List ℚ) (f g : ℚ → ℚ) (c : ℚ)
    (h : ∀ b ∈ l, |f b - g b| ≤ c) :
    |(l.map f).sum - (l.map g).sum| ≤ l.length * c := by
  induction l with
  | nil => simp
  | cons a t ih =>
    have ha : |f a - g a| ≤ c := h a (by simp)
    have ht : |(t.map f).sum - (t.map g).sum| ≤ t.length * c :=
      ih (fun b hb => h b (by simp [hb]))
    have hsplit : (f a + (t.map f).sum) - (g a + (t.map g).sum) =
        (f a - g a) + ((t.map f).sum - (t.map g).sum) := by ring
    simp only [List.map_cons, List.sum_cons, List.length_cons, hsplit]
    calc |(f a - g a) + ((t.map f).sum - (t.map g).sum)|
        ≤ |f a - g a| + |(t.map f).sum - (t.map g).sum| := abs_add _ _
      _ ≤ c + t.length * c := add_le_add ha ht
      _ = (t.length + 1) * c := by ring
      _ = ((t.length + 1 : ℕ) : ℚ) * c := by push_cast; ring

theorem sum_recomputed_pct_bound (l : List ℚ) (T : ℚ) (hT : 0 < T)
    (hsum : l.sum = T) :
    |(l.map (fun b => toFixed1Q (b / T * 100))).sum - 100| ≤ l.length * (1/10) := by
  have hT' : T ≠ 0 := ne_of_gt hT
  have hexact : (l.map (fun b => b / T * 100)).sum = 100 := by
    have : (fun b : ℚ => b / T * 100) = (fun b : ℚ => b * (100 / T)) := by
      funext b
      field_simp
    rw [this, sum_map_mul_right_q, hsum]
    field_simp
  have hbound : |(l.map (fun b => toFixed1Q (b / T * 100))).sum -
      (l.map (fun b => b / T * 100)).sum| ≤ l.length * (1/20) :=
    abs_sum_map_sub_le l _ _ _ (fun b _ => abs_toFixed1Q_sub (b / T * 100))
  rw [hexact] at hbound
  have hlen : (l.length : ℚ) * (1/20) ≤ l.length * (1/10) := by
    have : (0 : ℚ) ≤ l.length := by positivity
    nlinarith
  linarith


theorem pctCap_eq_min (p : ℚ) : pctCap p = min p (999/10) := by
  rcases le_total p (999/10) with h | h
  · rw [pctCap, min_eq_left h]
    by_cases h9 : (999 : ℚ)/10 ≤ p
    · rw [if_pos h9]
      exact le_antisymm h9 h
    · rw [if_neg h9]
  · rw [pctCap, min_eq_right h, if_pos h]

theorem numericPlan_totalBudget {plan : AdPlan} (hn : numericPlan plan = true) :
    plan.totalBudget = some (plan.totalBudget.getD 0) := by
  simp only [numericPlan, Bool.and_eq_true] at hn
  rcases Option.isSome_iff_exists.mp hn.1 with ⟨t, ht⟩
  simp [ht]

theorem numericPlan_budgets {plan : AdPlan} (hn : numericPlan plan = true) :
    numericBudgets plan.allocations = true := by
  simp only [numericPlan, Bool.and_eq_true] at hn
  exact hn.2

/-- Claim C1: for every percentage edit of allocation `i` with raw value `v`,
with `p = min(100, max(0, v))` and `otherBudget` the sum of the budgets of
all other allocations, the edited budget becomes
`round(totalBudget_pre * p/100)` when `otherBudget = 0` and otherwise
`round(otherBudget * p'/(100-p'))` with `p'` the value of `p` capped at
`99.9`; the other budgets are unchanged, `totalBudget` is recomputed as the
sum of all budgets, and when that sum is positive every allocation's
percentage is recomputed as its budget over the new total rounded to one
decimal place. -/
theorem percentage_edit_matches_spec (plan : AdPlan) (i : ℕ) (v : ℚ)
    (hi : i < plan.allocations.length) (hn : numericPlan plan = true) :
    ∃ q : AdPlan, handleAllocationChange false plan i .percentage (.num v) = .updated q ∧
      q.allocations.length = plan.allocations.length ∧
      (∀ a : MediaAllocation, q.allocations[i]? = some a →
        a.budget = some (if sumQ (plan.allocations.eraseIdx i) = 0 then
            jsRoundQ (plan.totalBudget.getD 0 * (min 100 (max 0 v) / 100))
          else
            jsRoundQ (sumQ (plan.allocations.eraseIdx i) *
              (min (min 100 (max 0 v)) (999/10) /
               (100 - min (min 100 (max 0 v)) (999/10)))))) ∧
      (∀ j : ℕ, j ≠ i → (q.allocations[j]?).map (fun a => a.budget) =
        (plan.allocations[j]?).map (fun a => a.budget)) ∧
      q.totalBudget = some (sumQ q.allocations) ∧
      (0 < sumQ q.allocations →
        ∀ (j : ℕ) (a : MediaAllocation), q.allocations[j]? = some a →
          a.percentage = some (toFixed1Q (budgetQ a / sumQ q.allocations * 100))) := by
  have hbn : numericBudgets plan.allocations = true := numericPlan_budgets hn
  have hit : plan.allocations[i]? = some plan.allocations[i] :=
    List.getElem?_eq_getElem hi
  have ht0 : plan.totalBudget = some (plan.totalBudget.getD 0) :=
    numericPlan_totalBudget hn
  have hchar := handleAllocationChange_pct hit ht0 hbn v
  set item := plan.allocations[i] with hitemdef
  set t0 := plan.totalBudget.getD 0 with ht0def
  set ob := sumQ (plan.allocations.eraseIdx i) with hobdef
  set nb := pctNewBudget t0 ob v with hnbdef
  set item' : MediaAllocation := { item with budget := some nb } with hitemset
  set l1 := plan.allocations.set i item' with hl1def
  set T := ob + nb with hTdef
  obtain ⟨q, hq, hqa, hqt⟩ :
      ∃ q, handleAllocationChange false plan i .percentage (.num v) = .updated q ∧
        q.allocations = recomputePercentages (some T) l1 ∧ q.totalBudget = some T :=
    ⟨_, hchar, rfl, rfl⟩
  have hb1 : numericBudgets l1 = true := by
    rw [hl1def]
    exact numericBudgets_set hbn (by simp [hitemset]) i
  have hsum1 : sumQ l1 = T := by
    rw [hl1def, sumQ_set hi]
    simp [hitemset, budgetQ, hTdef]
  have hsumq : sumQ q.allocations = T := by
    rw [hqa, sumQ_recomputePercentages, hsum1]
  have hspec : nb = (if ob = 0 then
      jsRoundQ (t0 * (min 100 (max 0 v) / 100))
    else
      jsRoundQ (ob * (min (min 100 (max 0 v)) (999/10) /
        (100 - min (min 100 (max 0 v)) (999/10))))) := by
    rw [hnbdef, pctNewBudget, pctCap_eq_min]
  refine ⟨q, hq, ?_, ?_, ?_, ?_, ?_⟩
  · rw [hqa, length_recomputePercentages, hl1def, List.length_set]
  · intro a ha
    rw [← hspec]
    rw [hqa] at ha
    by_cases hpos : (0 : ℚ) < T
    · rw [recomputePercentages_pos hpos hb1, List.getElem?_map, hl1def,
        List.getElem?_set_eq_of_lt _ hi] at ha
      rw [Option.map_some', Option.some.injEq] at ha
      subst ha
      rfl
    · have hgt : jsGt (some T) (some 0) = false := by
        rw [jsGt_some]
        exact decide_eq_false_iff_not.mpr hpos
      rw [recomputePercentages_nonpos hgt _, hl1def,
        List.getElem?_set_eq_of_lt _ hi, Option.some.injEq] at ha
      subst ha
      rfl
  · intro j hj
    rw [hqa]
    have hbase : l1[j]? = plan.allocations[j]? := by
      rw [hl1def]
      exact List.getElem?_set_ne (fun h => hj h.symm)
    by_cases hpos : (0 : ℚ) < T
    · rw [recomputePercentages_pos hpos hb1, List.getElem?_map, hbase, Option.map_map]
      rfl
    · have hgt : jsGt (some T) (some 0) = false := by
        rw [jsGt_some]
        exact decide_eq_false_iff_not.mpr hpos
      rw [recomputePercentages_nonpos hgt _, hbase]
  · rw [hqt, hsumq]
  · intro hpos j a ha
    rw [hsumq] at hpos ⊢
    rw [hqa, recomputePercentages_pos hpos hb1, List.getElem?_map] at ha
    rcases Option.map_eq_some.mp ha with ⟨a0, ha0, rfl⟩
    simp [budgetQ]

/-- Allocation A of the spec's worked scenario (40%, 20000). -/
def allocA : MediaAllocation :=
  { type := "社区单元门灯箱", name := "灯箱A", percentage := some 40,
    budget := some 20000, reasoning := "覆盖核心社区", specifications := none,
    location := none }

/-- Allocation B of the spec's worked scenario (60%, 30000). -/
def allocB : MediaAllocation :=
  { type := "广告门", name := "门B", percentage := some 60,
    budget := some 30000, reasoning := "高频曝光", specifications := none,
    location := none }

/-- A minimal brand profile for concrete instances. -/
def profile0 : UserProfile :=
  { painPoints := "知名度低", goals := "提升销量", scenarios := "社区",
    products := "饮品", measurement := "到店量" }

/-- A minimal analysis block for concrete instances. -/
def analysis0 : AnalysisData :=
  { roi := "分析生成中...", swot := "分析生成中...", marketing4p := "分析生成中...",
    competitorInsight := "分析生成中...", creativeSuggestions := some "建议生成中..." }

/-- The spec's worked scenario: total budget 50000, allocations A(40%, 20000)
and B(60%, 30000). -/
def plan0 : AdPlan :=
  { id := "1700000000000", name := "饮品 推广方案", createdAt := 1700000000000,
    userProfile := profile0, totalBudget := some 50000, duration := "4周",
    regions := ["上海"], allocations := [allocA, allocB], analysis := analysis0 }

theorem percentage_edit_matches_spec_witness :
    ∃ q : AdPlan, handleAllocationChange false plan0 0 .percentage (.num 50) = .updated q ∧
      q.totalBudget = some (sumQ q.allocations) := by
  obtain ⟨q, hq, _, _, _, htot, _⟩ :=
    percentage_edit_matches_spec plan0 0 50 (by decide) (by decide)
  exact ⟨q, hq, htot⟩

/-- Claim C2: for every budget edit of allocation `i` with raw value `v`,
allocation `i`'s budget becomes `max(0, v)`, `totalBudget` becomes the sum
of all allocation budgets, and when that sum is positive every allocation's
percentage becomes its budget over the new total rounded to one decimal —
in particular allocation `i`'s percentage reads back as
`round(max(0,v) / total * 100, 1)`; when the new total is `0` all
percentages are left unchanged. -/
theorem budget_edit_matches_spec (plan : AdPlan) (i : ℕ) (v : ℚ)
    (hi : i < plan.allocations.length) (hb : numericBudgets plan.allocations = true) :
    ∃ q : AdPlan, handleAllocationChange false plan i .budget (.num v) = .updated q ∧
      q.allocations.length = plan.allocations.length ∧
      (∀ a : MediaAllocation, q.allocations[i]? = some a → a.budget = some (max 0 v)) ∧
      q.totalBudget = some (sumQ q.allocations) ∧
      (0 < sumQ q.allocations →
        ∀ (j : ℕ) (a : MediaAllocation), q.allocations[j]? = some a →
          a.percentage = some (toFixed1Q (budgetQ a / sumQ q.allocations * 100))) ∧
      (0 < sumQ q.allocations →
        ∀ a : MediaAllocation, q.allocations[i]? = some a →
          a.percentage = some (toFixed1Q (max 0 v / sumQ q.allocations * 100))) ∧
      (sumQ q.allocations = 0 →
        ∀ j : ℕ, (q.allocations[j]?).map (fun a => a.percentage) =
          (plan.allocations[j]?).map (fun a => a.percentage)) := by
  have hit : plan.allocations[i]? = some plan.allocations[i] :=
    List.getElem?_eq_getElem hi
  have hchar := handleAllocationChange_budget hit hb v
  set item := plan.allocations[i] with hitemdef
  set ob := sumQ (plan.allocations.eraseIdx i) with hobdef
  set nb := max (0 : ℚ) v with hnbdef
  set item' : MediaAllocation := { item with budget := some nb } with hitemset
  set l1 := plan.allocations.set i item' with hl1def
  set T := ob + nb with hTdef
  obtain ⟨q, hq, hqa, hqt⟩ :
      ∃ q, handleAllocationChange false plan i .budget (.num v) = .updated q ∧
        q.allocations = recomputePercentages (some T) l1 ∧ q.totalBudget = some T :=
    ⟨_, hchar, rfl, rfl⟩
  have hb1 : numericBudgets l1 = true := by
    rw [hl1def]
    exact numericBudgets_set hb (by simp [hitemset]) i
  have hsum1 : sumQ l1 = T := by
    rw [hl1def, sumQ_set hi]
    simp [hitemset, budgetQ, hTdef]
  have hsumq : sumQ q.allocations = T := by
    rw [hqa, sumQ_recomputePercentages, hsum1]
  have hbudi : ∀ a : MediaAllocation, q.allocations[i]? = some a → a.budget = some nb := by
    intro a ha
    rw [hqa] at ha
    by_cases hpos : (0 : ℚ) < T
    · rw [recomputePercentages_pos hpos hb1, List.getElem?_map, hl1def,
        List.getElem?_set_eq_of_lt _ hi, Option.map_some', Option.some.injEq] at ha
      subst ha
      rfl
    · have hgt : jsGt (some T) (some 0) = false := by
        rw [jsGt_some]
        exact decide_eq_false_iff_not.mpr hpos
      rw [recomputePercentages_nonpos hgt _, hl1def,
        List.getElem?_set_eq_of_lt _ hi, Option.some.injEq] at ha
      subst ha
      rfl
  have hpcts : 0 < sumQ q.allocations →
      ∀ (j : ℕ) (a : MediaAllocation), q.allocations[j]? = some a →
        a.percentage = some (toFixed1Q (budgetQ a / sumQ q.allocations * 100)) := by
    intro hpos j a ha
    rw [hsumq] at hpos ⊢
    rw [hqa, recomputePercentages_pos hpos hb1, List.getElem?_map] at ha
    rcases Option.map_eq_some.mp ha with ⟨a0, ha0, rfl⟩
    simp [budgetQ]
  refine ⟨q, hq, ?_, hbudi, ?_, hpcts, ?_, ?_⟩
  · rw [hqa, length_recomputePercentages, hl1def, List.length_set]
  · rw [hqt, hsumq]
  · intro hpos a ha
    have h1 := hpcts hpos _ _ ha
    have h2 := hbudi _ ha
    rw [h1]
    have : budgetQ a = nb := by
      rw [budgetQ, h2]
      rfl
    rw [this]
  · intro h0 j
    have hpos : ¬ (0 : ℚ) < T := by
      rw [hsumq] at h0
      rw [h0]
      exact lt_irrefl 0
    have hgt : jsGt (some T) (some 0) = false := by
      rw [jsGt_some]
      exact decide_eq_false_iff_not.mpr hpos
    rw [hqa, recomputePercentages_nonpos hgt _]
    by_cases hj : j = i
    · subst hj
      rw [hl1def, List.getElem?_set_eq_of_lt _ hi, hit]
      rfl
    · rw [hl1def, List.getElem?_set_ne (fun h => hj h.symm)]

theorem budget_edit_matches_spec_witness :
    ∃ q : AdPlan, handleAllocationChange false plan0 0 .budget (.num 25000) = .updated q ∧
      q.totalBudget = some (sumQ q.allocations) := by
  obtain ⟨q, hq, _, _, htot, _, _, _⟩ :=
    budget_edit_matches_spec plan0 0 25000 (by decide) (by decide)
  exact ⟨q, hq, htot⟩

/-- Claim C3: for every plan and valid percentage edit `p ∈ [0, 100)`, after
the recomputation the plan's `totalBudget` equals the sum of all
allocations' budgets exactly, and whenever percentages were recomputed
(new total positive) their sum differs from `100` by at most `0.1` times
the number of allocations. -/
theorem percentage_edit_invariant (plan : AdPlan) (i : ℕ) (v : ℚ)
    (hi : i < plan.allocations.length) (hn : numericPlan plan = true)
    (_hv0 : 0 ≤ v) (_hv1 : v < 100) :
    ∃ q : AdPlan, handleAllocationChange false plan i .percentage (.num v) = .updated q ∧
      q.totalBudget = some (sumQ q.allocations) ∧
      (∀ t : ℚ, q.totalBudget = some t → 0 < t →
        |(q.allocations.map pctQ).sum - 100| ≤ (q.allocations.length : ℚ) * (1/10)) := by
  have hbn : numericBudgets plan.allocations = true := numericPlan_budgets hn
  have hit : plan.allocations[i]? = some plan.allocations[i] :=
    List.getElem?_eq_getElem hi
  have ht0 : plan.totalBudget = some (plan.totalBudget.getD 0) :=
    numericPlan_totalBudget hn
  have hchar := handleAllocationChange_pct hit ht0 hbn v
  set item := plan.allocations[i] with hitemdef
  set t0 := plan.totalBudget.getD 0 with ht0def
  set ob := sumQ (plan.allocations.eraseIdx i) with hobdef
  set nb := pctNewBudget t0 ob v with hnbdef
  set item' : MediaAllocation := { item with budget := some nb } with hitemset
  set l1 := plan.allocations.set i item' with hl1def
  set T := ob + nb with hTdef
  obtain ⟨q, hq, hqa, hqt⟩ :
      ∃ q, handleAllocationChange false plan i .percentage (.num v) = .updated q ∧
        q.allocations = recomputePercentages (some T) l1 ∧ q.totalBudget = some T :=
    ⟨_, hchar, rfl, rfl⟩
  have hb1 : numericBudgets l1 = true := by
    rw [hl1def]
    exact numericBudgets_set hbn (by simp [hitemset]) i
  have hsum1 : sumQ l1 = T := by
    rw [hl1def, sumQ_set hi]
    simp [hitemset, budgetQ, hTdef]
  have hsumq : sumQ q.allocations = T := by
    rw [hqa, sumQ_recomputePercentages, hsum1]
  refine ⟨q, hq, by rw [hqt, hsumq], ?_⟩
  intro t ht hpos
  rw [hqt, Option.some.injEq] at ht
  subst ht
  rw [hqa, recomputePercentages_pos hpos hb1]
  have hmm : (l1.map (fun it =>
      { it with percentage := some (toFixed1Q (budgetQ it / T * 100)) })).map pctQ =
      (l1.map budgetQ).map (fun b => toFixed1Q (b / T * 100)) := by
    rw [List.map_map, List.map_map]
    apply List.map_congr_left
    intro a _
    simp [pctQ, budgetQ]
  rw [hmm]
  have hbound := sum_recomputed_pct_bound (l1.map budgetQ) T hpos (by
    rw [← hsum1]
    rfl)
  rw [List.length_map] at hbound
  simpa using hbound

theorem percentage_edit_invariant_witness :
    ∃ q : AdPlan, handleAllocationChange false plan0 0 .percentage (.num 50) = .updated q ∧
      q.totalBudget = some (sumQ q.allocations) ∧
      (∀ t : ℚ, q.totalBudget = some t → 0 < t →
        |(q.allocations.map pctQ).sum - 100| ≤ (q.allocations.length : ℚ) * (1/10)) :=
  percentage_edit_invariant plan0 0 50 (by decide) (by decide) (by decide) (by decide)

theorem round_trip_key (ob v : ℚ) (hob : 1000 ≤ ob) (hv0 : 0 ≤ v)
    (hv1 : v < 999/10) :
    |toFixed1Q (jsRoundQ (ob * (v / (100 - v))) /
        (ob + jsRoundQ (ob * (v / (100 - v)))) * 100) - v| ≤ 1/10 := by
  set bs := ob * (v / (100 - v)) with hbsdef
  set nb := jsRoundQ bs with hnbdef
  have h100v : (0 : ℚ) < 100 - v := by linarith
  have hobpos : (0 : ℚ) < ob := by linarith
  have hbs0 : (0 : ℚ) ≤ bs := by
    rw [hbsdef]
    positivity
  have hnb0 : (0 : ℚ) ≤ nb := jsRoundQ_nonneg hbs0
  have hT : (0 : ℚ) < ob + nb := by linarith
  have hbsob : (0 : ℚ) < bs + ob := by linarith
  have hround : |nb - bs| ≤ 1/2 := abs_jsRoundQ_sub bs
  have hveq : v = 100 * bs / (bs + ob) := by
    rw [hbsdef]
    rw [eq_div_iff (by rw [← hbsdef]; exact ne_of_gt hbsob)]
    field_simp
    ring
  have hx : nb / (ob + nb) * 100 - 100 * bs / (bs + ob) =
      100 * ob * (nb - bs) / ((ob + nb) * (bs + ob)) := by
    field_simp
    ring
  have hxv : |nb / (ob + nb) * 100 - v| ≤ 50 / ob := by
    rw [hveq, hx, abs_div, abs_mul, abs_mul]
    rw [abs_of_pos (by norm_num : (0:ℚ) < 100), abs_of_pos hobpos,
      abs_of_pos (mul_pos hT hbsob)]
    have hnum : 100 * ob * |nb - bs| ≤ 50 * ob := by
      have := mul_le_mul_of_nonneg_left hround (by positivity : (0:ℚ) ≤ 100 * ob)
      linarith
    have hden : ob * ob ≤ (ob + nb) * (bs + ob) := by nlinarith
    have hstep : 100 * ob * |nb - bs| / ((ob + nb) * (bs + ob)) ≤
        (50 * ob) / (ob * ob) :=
      div_le_div₀ (by positivity) hnum (by positivity) hden
    have heq : (50 * ob) / (ob * ob) = 50 / ob := by
      field_simp
      ring
    rw [heq] at hstep
    exact hstep
  have htri : |toFixed1Q (nb / (ob + nb) * 100) - v| ≤
      |toFixed1Q (nb / (ob + nb) * 100) - nb / (ob + nb) * 100| +
      |nb / (ob + nb) * 100 - v| := abs_sub_le _ _ _
  have hfix := abs_toFixed1Q_sub (nb / (ob + nb) * 100)
  have hsmall : 50 / ob ≤ 1/20 := by
    have : (50 : ℚ) / ob ≤ 50 / 1000 :=
      div_le_div_of_nonneg_left (by norm_num) (by norm_num) hob
    linarith
  linarith

/-- The percentage reported for allocation `i` after a handler call, when
the call emitted an updated plan. -/
def updatedPct (r : HandlerResult) (i : ℕ) : Option JSNum :=
  match r with
  | .updated q => (q.allocations[i]?).map (fun a => a.percentage)
  | _ => none

/-- A plan whose edited allocation sits next to a single other allocation
of budget 1: the integer rounding of the solved budget then dominates. -/
def planTiny : AdPlan :=
  { id := "2", name := "小预算方案", createdAt := 0, userProfile := profile0,
    totalBudget := some 1, duration := "2周", regions := ["北京"],
    allocations :=
      [{ type := "广告门", name := "门", percentage := some 0, budget := some 0,
         reasoning := "r", specifications := none, location := none },
       { type := "开门App广告", name := "屏", percentage := some 100, budget := some 1,
         reasoning := "r", specifications := none, location := none }],
    analysis := analysis0 }

/-- Claim C4 is false as stated: on `planTiny` the other allocations'
budgets sum to `1 > 0` and the target percentage `40` lies in `[0, 99.9)`,
yet the percentage edit rounds the solved budget `2/3` up to `1`, so the
recomputed percentage reads back as `50`, which is not within `0.1` of
`40`. -/
theorem percentage_round_trip_counterexample :
    0 < sumQ (planTiny.allocations.eraseIdx 0) ∧
    (0 : ℚ) ≤ 40 ∧ (40 : ℚ) < 999/10 ∧
    updatedPct (handleAllocationChange false planTiny 0 .percentage (.num 40)) 0 =
      some (some 50) ∧
    ¬ |(50 : ℚ) - 40| ≤ 1/10 := by
  refine ⟨?_, by norm_num, by norm_num, ?_, by norm_num⟩
  · norm_num [sumQ, budgetQ, planTiny, List.eraseIdx]
  · norm_num [updatedPct, handleAllocationChange, planTiny, profile0, analysis0,
      sumBudgetsExceptJS, sumBudgetsExceptAux, sumBudgetsJS, jsAdd, jsMin, jsMax,
      jsToNumber, jsRound, jsRoundQ, jsDiv, jsSub, jsMul, jsGe, jsGt, jsToFixed1,
      toFixed1Q, recomputePercentages, Int.floor_eq_iff]

/-- Claim C4 amended: the round trip holds once the other allocations'
budgets sum to at least `1000` currency units (so that rounding the solved
budget to a whole unit moves the share by at most `0.05`): for
`otherBudget ≥ 1000` and `0 ≤ p < 99.9`, editing allocation `i`'s
percentage to `p` yields a recomputed percentage within `0.1` of `p`. -/
theorem percentage_round_trip_amended (plan : AdPlan) (i : ℕ) (v : ℚ)
    (hi : i < plan.allocations.length) (hn : numericPlan plan = true)
    (hv0 : 0 ≤ v) (hv1 : v < 999/10)
    (hob : 1000 ≤ sumQ (plan.allocations.eraseIdx i)) :
    ∃ q : AdPlan, handleAllocationChange false plan i .percentage (.num v) = .updated q ∧
      ∀ a : MediaAllocation, q.allocations[i]? = some a →
        ∃ pn : ℚ, a.percentage = some pn ∧ |pn - v| ≤ 1/10 := by
  have hbn : numericBudgets plan.allocations = true := numericPlan_budgets hn
  have hit : plan.allocations[i]? = some plan.allocations[i] :=
    List.getElem?_eq_getElem hi
  have ht0 : plan.totalBudget = some (plan.totalBudget.getD 0) :=
    numericPlan_totalBudget hn
  have hchar := handleAllocationChange_pct hit ht0 hbn v
  set item := plan.allocations[i] with hitemdef
  set t0 := plan.totalBudget.getD 0 with ht0def
  set ob := sumQ (plan.allocations.eraseIdx i) with hobdef
  have hobpos : (0 : ℚ) < ob := by linarith
  have hob0 : ¬ ob = 0 := ne_of_gt hobpos
  have hp : min 100 (max 0 v) = v := by
    rw [max_eq_right hv0, min_eq_right (by linarith)]
  have hnbform : pctNewBudget t0 ob v = jsRoundQ (ob * (v / (100 - v))) := by
    rw [pctNewBudget, if_neg hob0, hp, pctCap, if_neg (not_le.mpr hv1)]
  set nb := pctNewBudget t0 ob v with hnbdef
  set item' : MediaAllocation := { item with budget := some nb } with hitemset
  set l1 := plan.allocations.set i item' with hl1def
  set T := ob + nb with hTdef
  obtain ⟨q, hq, hqa, hqt⟩ :
      ∃ q, handleAllocationChange false plan i .percentage (.num v) = .updated q ∧
        q.allocations = recomputePercentages (some T) l1 ∧ q.totalBudget = some T :=
    ⟨_, hchar, rfl, rfl⟩
  have hb1 : numericBudgets l1 = true := by
    rw [hl1def]
    exact numericBudgets_set hbn (by simp [hitemset]) i
  have hbs0 : (0 : ℚ) ≤ ob * (v / (100 - v)) := by
    have h100v : (0 : ℚ) < 100 - v := by linarith
    positivity
  have hnb0 : (0 : ℚ) ≤ nb := by
    rw [hnbform]
    exact jsRoundQ_nonneg hbs0
  have hpos : (0 : ℚ) < T := by
    rw [hTdef]
    linarith
  refine ⟨q, hq, ?_⟩
  intro a ha
  rw [hqa, recomputePercentages_pos hpos hb1, List.getElem?_map, hl1def,
    List.getElem?_set_eq_of_lt _ hi, Option.map_some', Option.some.injEq] at ha
  subst ha
  refine ⟨toFixed1Q (budgetQ item' / T * 100), rfl, ?_⟩
  have hbq : budgetQ item' = nb := by
    rw [hitemset, budgetQ]
    rfl
  rw [hbq, hTdef, hnbform]
  exact round_trip_key ob v hob hv0 hv1

theorem percentage_round_trip_amended_witness :
    ∃ q : AdPlan,
      handleAllocationChange false plan0 0 .percentage (.num 50) = .updated q ∧
      ∀ a : MediaAllocation, q.allocations[0]? = some a →
        ∃ pn : ℚ, a.percentage = some pn ∧ |pn - 50| ≤ 1/10 :=
  percentage_round_trip_amended plan0 0 50 (by decide) (by decide)
    (by norm_num) (by norm_num)
    (by norm_num [sumQ, budgetQ, plan0, allocB, List.eraseIdx])

theorem foldl_jsAdd_from_none (l : List MediaAllocation) :
    l.foldl (fun s a => jsAdd s a.budget) none = none := by
  induction l with
  | nil => rfl
  | cons a t ih =>
    simp only [List.foldl_cons, jsAdd_none_left]
    exact ih

theorem foldl_jsAdd_none_mem : ∀ (l : List MediaAllocation) (s : JSNum),
    (∃ a ∈ l, a.budget = none) → l.foldl (fun s a => jsAdd s a.budget) s = none := by
  intro l
  induction l with
  | nil =>
    intro s h
    obtain ⟨a, ha, _⟩ := h
    exact absurd ha (List.not_mem_nil a)
  | cons b t ih =>
    intro s h
    obtain ⟨a, ha, hb⟩ := h
    rcases List.mem_cons.mp ha with rfl | hmem
    · simp only [List.foldl_cons, hb, jsAdd_none_right]
      exact foldl_jsAdd_from_none t
    · simp only [List.foldl_cons]
      exact ih _ ⟨a, hmem, hb⟩

theorem sumBudgetsJS_none {l : List MediaAllocation}
    (h : ∃ a ∈ l, a.budget = none) : sumBudgetsJS l = none :=
  foldl_jsAdd_none_mem l (some 0) h

theorem mem_set_of_lt {l : List MediaAllocation} {i : ℕ} (hi : i < l.length)
    (a : MediaAllocation) : a ∈ l.set i a := by
  have h : (l.set i a).get? i = some a := by
    rw [List.get?_eq_getElem?]
    exact List.getElem?_set_eq_of_lt _ hi
  exact List.get?_mem h

theorem handleAllocationChange_pct_nan {plan : AdPlan} {i : ℕ}
    {item : MediaAllocation} (hit : plan.allocations[i]? = some item)
    {value : JSValue} (hv : jsToNumber value = none) :
    handleAllocationChange false plan i .percentage value =
      .updated { plan with
        totalBudget := none
        allocations := plan.allocations.set i { item with budget := none } } := by
  have hi : i < plan.allocations.length := getElem?_some_lt hit
  have hsum : sumBudgetsJS (plan.allocations.set i { item with budget := none }) = none :=
    sumBudgetsJS_none ⟨_, mem_set_of_lt hi _, rfl⟩
  simp only [handleAllocationChange, Bool.false_eq_true, if_false, hit, hv,
    jsMax_none_right, jsMin_none_right]
  by_cases hob : sumBudgetsExceptJS plan.allocations i = some 0
  · rw [if_pos hob]
    simp only [jsDiv_none_left, jsMul_none_right, jsRound_none, hsum,
      recomputePercentages_nonpos (by rfl : jsGt none (some 0) = false)]
  · rw [if_neg hob]
    simp only [jsGe_none_left, Bool.false_eq_true, if_false, jsSub_none_right,
      jsDiv_none_right, jsMul_none_right, jsRound_none, hsum,
      recomputePercentages_nonpos (by rfl : jsGt none (some 0) = false)]

theorem handleAllocationChange_budget_nan {plan : AdPlan} {i : ℕ}
    {item : MediaAllocation} (hit : plan.allocations[i]? = some item)
    {value : JSValue} (hv : jsToNumber value = none) :
    handleAllocationChange false plan i .budget value =
      .updated { plan with
        totalBudget := none
        allocations := plan.allocations.set i { item with budget := none } } := by
  have hi : i < plan.allocations.length := getElem?_some_lt hit
  have hsum : sumBudgetsJS (plan.allocations.set i { item with budget := none }) = none :=
    sumBudgetsJS_none ⟨_, mem_set_of_lt hi _, rfl⟩
  simp only [handleAllocationChange, Bool.false_eq_true, if_false, hit, hv,
    jsMax_none_right, hsum,
    recomputePercentages_nonpos (by rfl : jsGt none (some 0) = false)]

/-- The edited allocation's budget reported after a handler call, when the
call emitted an updated plan. -/
def updatedBudget (r : HandlerResult) (i : ℕ) : Option JSNum :=
  match r with
  | .updated q => (q.allocations[i]?).map (fun a => a.budget)
  | _ => none

/-- The plan total reported after a handler call, when the call emitted an
updated plan. -/
def updatedTotal (r : HandlerResult) : Option JSNum :=
  match r with
  | .updated q => some q.totalBudget
  | _ => none

/-- Claim C5 is false as stated: the non-numeric string `"abc"` coerces to
NaN, not `0`, and the NaN propagates — on `plan0` a percentage edit with
`"abc"` leaves the edited budget and the plan total as NaN, while an edit
with value `0` produces budget `0` and total `30000`, so the two edits do
not agree. -/
theorem nonnumeric_input_counterexample :
    jsToNumber (.str "abc") = none ∧
    updatedBudget (handleAllocationChange false plan0 0 .percentage (.str "abc")) 0 =
      some none ∧
    updatedTotal (handleAllocationChange false plan0 0 .percentage (.str "abc")) =
      some none ∧
    updatedBudget (handleAllocationChange false plan0 0 .percentage (.num 0)) 0 =
      some (some 0) ∧
    updatedTotal (handleAllocationChange false plan0 0 .percentage (.num 0)) =
      some (some 30000) ∧
    handleAllocationChange false plan0 0 .percentage (.str "abc") ≠
      handleAllocationChange false plan0 0 .percentage (.num 0) := by
  have habc : jsToNumber (.str "abc") = none := by decide
  have h1 : handleAllocationChange false plan0 0 .percentage (.str "abc") =
      .updated { plan0 with
        totalBudget := none
        allocations := plan0.allocations.set 0 { allocA with budget := none } } :=
    handleAllocationChange_pct_nan (by decide) habc
  have h2 : updatedBudget (handleAllocationChange false plan0 0 .percentage (.num 0)) 0 =
      some (some 0) := by
    norm_num [updatedBudget, handleAllocationChange, plan0, allocA, allocB,
      profile0, analysis0, sumBudgetsExceptJS, sumBudgetsExceptAux, sumBudgetsJS,
      jsAdd, jsMin, jsMax, jsToNumber, jsRound, jsRoundQ, jsDiv, jsSub, jsMul,
      jsGe, jsGt, jsToFixed1, toFixed1Q, recomputePercentages, Int.floor_eq_iff]
  have h3 : updatedTotal (handleAllocationChange false plan0 0 .percentage (.num 0)) =
      some (some 30000) := by
    norm_num [updatedTotal, handleAllocationChange, plan0, allocA, allocB,
      profile0, analysis0, sumBudgetsExceptJS, sumBudgetsExceptAux, sumBudgetsJS,
      jsAdd, jsMin, jsMax, jsToNumber, jsRound, jsRoundQ, jsDiv, jsSub, jsMul,
      jsGe, jsGt, jsToFixed1, toFixed1Q, recomputePercentages, Int.floor_eq_iff]
  refine ⟨habc, by rw [h1]; rfl, by rw [h1]; rfl, h2, h3, ?_⟩
  intro heq
  rw [heq] at h1
  rw [h1] at h3
  simp [updatedTotal] at h3

theorem handleAllocationChange_value_congr (ro : Bool) (plan : AdPlan) (i : ℕ)
    {field : AllocField} (hf : field = .percentage ∨ field = .budget)
    {v1 v2 : JSValue} (h : jsToNumber v1 = jsToNumber v2) :
    handleAllocationChange ro plan i field v1 =
      handleAllocationChange ro plan i field v2 := by
  rcases hf with rfl | rfl <;> simp only [handleAllocationChange, h]

/-- Claim C5 corrected: numeric edits never raise an error, and the empty
string coerces to `0` so that an edit with `""` is exactly an edit with
value `0`; but a non-empty string that does not parse as a number coerces
to NaN, and the NaN propagates — the edited budget and the recomputed
`totalBudget` become NaN while all percentages are left unchanged (the
`newTotalBudget > 0` guard fails on NaN). -/
theorem nonnumeric_input_amended (plan : AdPlan) (i : ℕ) (field : AllocField)
    (hf : field = .percentage ∨ field = .budget) :
    (handleAllocationChange false plan i field (.str "") =
      handleAllocationChange false plan i field (.num 0)) ∧
    (∀ s : String, jsToNumber (.str s) = none →
      ∀ item : MediaAllocation, plan.allocations[i]? = some item →
        ∃ q : AdPlan, handleAllocationChange false plan i field (.str s) = .updated q ∧
          (∀ a : MediaAllocation, q.allocations[i]? = some a → a.budget = none) ∧
          q.totalBudget = none ∧
          (∀ j : ℕ, (q.allocations[j]?).map (fun a => a.percentage) =
            (plan.allocations[j]?).map (fun a => a.percentage))) := by
  constructor
  · exact handleAllocationChange_value_congr false plan i hf (by decide)
  · intro s hs item hit
    have hi : i < plan.allocations.length := getElem?_some_lt hit
    have hchar : handleAllocationChange false plan i field (.str s) =
        .updated { plan with
          totalBudget := none
          allocations := plan.allocations.set i { item with budget := none } } := by
      rcases hf with rfl | rfl
      · exact handleAllocationChange_pct_nan hit hs
      · exact handleAllocationChange_budget_nan hit hs
    refine ⟨_, hchar, ?_, rfl, ?_⟩
    · intro a ha
      simp only [List.getElem?_set_eq_of_lt _ hi, Option.some.injEq] at ha
      rw [← ha]
    · intro j
      by_cases hj : j = i
      · subst hj
        simp only [List.getElem?_set_eq_of_lt _ hi, hit]
        rfl
      · simp only [List.getElem?_set_ne (fun h => hj h.symm)]

theorem nonnumeric_input_amended_witness :
    ∃ q : AdPlan,
      handleAllocationChange false plan0 0 .percentage (.str "abc") = .updated q ∧
      q.totalBudget = none := by
  obtain ⟨_, h2⟩ := nonnumeric_input_amended plan0 0 .percentage (Or.inl rfl)
  obtain ⟨q, hq, _, ht, _⟩ := h2 "abc" (by decide) allocA (by decide)
  exact ⟨q, hq, ht⟩

/-- Claim C10: in read-only mode (a plan opened from a share link) every
call to the allocation-change handler — any index, any field, any value —
is a no-op: nothing is emitted and the plan is left untouched. -/
theorem readonly_edit_is_noop (plan : AdPlan) (i : ℕ) (field : AllocField)
    (value : JSValue) :
    handleAllocationChange true plan i field value = .noop := rfl

/-- Claim C6: `save(plan)` replaces the entry with the same id in place
(same position, no reordering) when one exists, and otherwise prepends the
plan; either way the entire resulting collection is persisted under the
single storage key. -/
theorem save_plan_spec (serialize : List AdPlan → String)
    (saved : List AdPlan) (p : AdPlan) :
    (handleSavePlanStore serialize saved p).2 =
      some (serialize (handleSavePlanStore serialize saved p).1) ∧
    (saved.any (fun q0 => q0.id = p.id) = true →
      (handleSavePlanStore serialize saved p).1.length = saved.length ∧
      ∀ (j : ℕ) (q0 : AdPlan), saved[j]? = some q0 →
        (handleSavePlanStore serialize saved p).1[j]? =
          some (if q0.id = p.id then p else q0)) ∧
    (saved.any (fun q0 => q0.id = p.id) = false →
      (handleSavePlanStore serialize saved p).1 = p :: saved) := by
  refine ⟨rfl, ?_, ?_⟩
  · intro hx
    constructor
    · simp [handleSavePlanStore, handleSavePlan, hx]
    · intro j q0 hj
      simp only [handleSavePlanStore, handleSavePlan, hx, if_true,
        List.getElem?_map, hj]
      rfl
  · intro hx
    simp [handleSavePlanStore, handleSavePlan, hx]

theorem save_plan_spec_witness :
    (handleSavePlanStore (fun _ => "blob") [] plan0).1 = [plan0] := by
  have h := (save_plan_spec (fun _ => "blob") [] plan0).2.2 (by decide)
  exact h

/-- Claim C7: on startup load of the persisted collection, absence of the
stored blob yields the empty collection, and a present but unparseable
blob also falls back to the empty collection; the load never throws
(`loadSavedPlans` is total). -/
theorem load_tolerates_corruption (parse : String → Option (List AdPlan)) :
    loadSavedPlans parse none = [] ∧
    (∀ s : String, parse s = none → loadSavedPlans parse (some s) = []) := by
  refine ⟨rfl, ?_⟩
  intro s hs
  by_cases h : s.isEmpty <;> simp [loadSavedPlans, h, hs]

theorem load_tolerates_corruption_witness :
    loadSavedPlans (fun _ => none) (some "corrupt json") = [] :=
  (load_tolerates_corruption (fun _ => none)).2 "corrupt json" rfl

/-- Claim C8: when the asynchronous analysis call resolves, the patch is
applied only when the currently held plan's id equals the id of the plan
that originated the request; otherwise (different id, or no current plan)
the resolution is discarded and the state is unchanged. -/
theorem stale_analysis_guard (newId : String) (patch : AnalysisData)
    (prev : Option AdPlan) :
    (prev = none → applyAnalysisPatch newId patch prev = none) ∧
    (∀ p : AdPlan, prev = some p → p.id = newId →
      applyAnalysisPatch newId patch prev = some { p with analysis := patch }) ∧
    (∀ p : AdPlan, prev = some p → p.id ≠ newId →
      applyAnalysisPatch newId patch prev = prev) := by
  refine ⟨?_, ?_, ?_⟩
  · intro h
    subst h
    rfl
  · intro p h hid
    subst h
    simp [applyAnalysisPatch, hid]
  · intro p h hid
    subst h
    simp [applyAnalysisPatch, hid]

theorem stale_analysis_guard_witness :
    applyAnalysisPatch "some-other-id" analysis0 (some plan0) = some plan0 :=
  (stale_analysis_guard "some-other-id" analysis0 (some plan0)).2.2 plan0 rfl
    (by decide)

/-- A strict reader for the body of one double-quoted CSV field, applied
after the opening quote: an embedded `""` denotes one quote character, a
single `"` must close the field and end the input (the field stands
alone). -/
def csvParseQuoted : List Char → Option (List Char)
  | [] => none
  | c :: rest =>
    if c = '"' then
      match rest with
      | [] => some []
      | d :: rest2 =>
        if d = '"' then (csvParseQuoted rest2).map (fun cs => '"' :: cs)
        else none
    else (csvParseQuoted rest).map (fun cs => c :: cs)

/-- Reading one whole quoted CSV field: an opening quote then a body. -/
def csvParseField (cs : List Char) : Option (List Char) :=
  match cs with
  | '"' :: rest => csvParseQuoted rest
  | _ => none

theorem csvParseQuoted_escDouble (xs : List Char) :
    csvParseQuoted (escDouble xs ++ ['"']) = some xs := by
  induction xs with
  | nil => rfl
  | cons c t ih =>
    by_cases hc : c = '"'
    · subst hc
      show csvParseQuoted ('"' :: '"' :: (escDouble t ++ ['"'])) = some ('"' :: t)
      rw [csvParseQuoted]
      rw [if_pos rfl, if_pos rfl, ih]
      rfl
    · have hstep : escDouble (c :: t) = c :: escDouble t := by
        show (if c = '"' then ['"', '"'] else [c]) ++ escDouble t = c :: escDouble t
        rw [if_neg hc]
        rfl
      rw [hstep, List.cons_append, csvParseQuoted.eq_def]
      dsimp only
      rw [if_neg hc, ih]
      rfl

theorem newline_not_mem_replaceNewlines (cs : List Char) :
    '\n' ∉ replaceNewlines cs := by
  simp only [replaceNewlines, List.mem_map]
  rintro ⟨c, _, hc⟩
  by_cases h : c = '\n' <;> simp [h] at hc

theorem replaceNewlines_append (l1 l2 : List Char) :
    replaceNewlines (l1 ++ l2) = replaceNewlines l1 ++ replaceNewlines l2 :=
  List.map_append _ _ _

theorem replaceNewlines_escDouble (cs : List Char) :
    replaceNewlines (escDouble cs) = escDouble (replaceNewlines cs) := by
  induction cs with
  | nil => rfl
  | cons c t ih =>
    by_cases hc : c = '"'
    · subst hc
      show replaceNewlines (['"', '"'] ++ escDouble t) =
        escDouble ((if '"' = '\n' then ' ' else '"') :: replaceNewlines t)
      rw [if_neg (by decide), replaceNewlines_append, ih]
      rfl
    · have hstep : escDouble (c :: t) = c :: escDouble t := by
        show (if c = '"' then ['"', '"'] else [c]) ++ escDouble t = c :: escDouble t
        rw [if_neg hc]
        rfl
      rw [hstep]
      show (if c = '\n' then ' ' else c) :: replaceNewlines (escDouble t) =
        escDouble ((if c = '\n' then ' ' else c) :: replaceNewlines t)
      rw [ih]
      by_cases hn : c = '\n'
      · rw [if_pos hn]
        show ' ' :: escDouble (replaceNewlines t) =
          (if ' ' = '"' then ['"', '"'] else [' ']) ++ escDouble (replaceNewlines t)
        rw [if_neg (by decide)]
        rfl
      · rw [if_neg hn]
        show c :: escDouble (replaceNewlines t) =
          (if c = '"' then ['"', '"'] else [c]) ++ escDouble (replaceNewlines t)
        rw [if_neg hc]
        rfl

/-- Claim C9: for every allocation whose rationale contains a double quote
and a newline, the CSV export renders the rationale as one correctly
escaped field: wrapped in double quotes, quotes doubled, newlines replaced
by spaces — so a CSV reader recovers exactly the rationale with its
newlines turned into single spaces. -/
theorem csv_rationale_field_escaped (item : MediaAllocation)
    (_h1 : '"' ∈ item.reasoning.toList) (_h2 : '\n' ∈ item.reasoning.toList)
    (numToStr : JSNum → String) :
    ∃ f : String, (csvRow numToStr item)[5]? = some f ∧
      f.toList = '"' :: (replaceNewlines (escDouble item.reasoning.toList) ++ ['"']) ∧
      csvParseField f.toList = some (replaceNewlines item.reasoning.toList) ∧
      '\n' ∉ f.toList := by
  refine ⟨csvReasoningField item.reasoning, rfl, rfl, ?_, ?_⟩
  · show csvParseQuoted (replaceNewlines (escDouble item.reasoning.toList) ++ ['"']) =
      some (replaceNewlines item.reasoning.toList)
    rw [replaceNewlines_escDouble]
    exact csvParseQuoted_escDouble _
  · show ¬ '\n' ∈ '"' :: (replaceNewlines (escDouble item.reasoning.toList) ++ ['"'])
    intro hmem
    rcases List.mem_cons.mp hmem with h | h
    · exact absurd h (by decide)
    · rcases List.mem_append.mp h with h | h
      · exact newline_not_mem_replaceNewlines _ h
      · simp at h

/-- An allocation whose rationale contains both a double quote and a
newline. -/
def allocC : MediaAllocation :=
  { type := "写字楼电梯海报", name := "海报C", percentage := some 100,
    budget := some 50000, reasoning := "he said \"hi\"\nnice reach",
    specifications := some "2m x 1m", location := some "CBD" }

theorem csv_rationale_field_escaped_witness :
    ∃ f : String, (csvRow (fun _ => "0") allocC)[5]? = some f ∧
      csvParseField f.toList = some (replaceNewlines allocC.reasoning.toList) := by
  obtain ⟨f, hf, _, hp, _⟩ :=
    csv_rationale_field_escaped allocC (by decide) (by decide) (fun _ => "0")
  exact ⟨f, hf, hp⟩
